import Mathlib

/-
Verification development for the dynamic-chunking (H-Net) pipeline of
src/01_hnet.ipynb.

Shallow embedding conventions:
* A tensor of shape (B, L, D) is a `List (List (List ℚ))` (batch of rows of
  feature vectors); a tensor of shape (B, L) is a `List (List ℚ)`.
* The router works over ℝ (its cosine similarity uses a square root); the
  rest of the pipeline is exact over ℚ so concrete runs are decidable.
* A raised Python exception (IndexError from an out-of-range tensor index,
  NameError from an unresolved global) is modelled by `Except PyFault`.
-/

set_option maxHeartbeats 1000000
set_option linter.unusedVariables false

abbrev Ten2 := List (List ℚ)
abbrev Ten3 := List (List (List ℚ))

/-- A runtime fault of the Python reference: an out-of-range tensor index
(`IndexError`, carrying the offending index and the dimension size) or an
unresolved global name (`NameError`). -/
inductive PyFault where
  | nameError (missing : String)
  | indexError (idx size : Nat)
deriving DecidableEq

/-! ### Downsampler (`downsample`, notebook cell 7) -/

/-- One batch element of `downsample`: the feature vectors at the positions
where the boundary indicator is nonzero (`mask = b.bool()`), in original
order. -/
def selectRows (xrow : List (List ℚ)) (brow : List ℚ) : List (List ℚ) :=
  (List.zip xrow brow).filterMap (fun pr => if pr.2 ≠ 0 then some pr.1 else none)

/-- One batch element of `downsample` for the probabilities: `p[i, idx]`. -/
def selectProbs (prow brow : List ℚ) : List ℚ :=
  (List.zip prow brow).filterMap (fun pr => if pr.2 ≠ 0 then some pr.1 else none)

def zeroVec (D : Nat) : List ℚ := List.replicate D 0

/-- `F.pad(x, (0, 0, 0, max_len - len(x)))`: right-pad with zero vectors. -/
def padRows (n D : Nat) (rows : List (List ℚ)) : List (List ℚ) :=
  rows ++ List.replicate (n - rows.length) (zeroVec D)

/-- `F.pad(P, (0, max_len - len(P)))`: right-pad with zero probabilities. -/
def padProbs (n : Nat) (ps : List ℚ) : List ℚ :=
  ps ++ List.replicate (n - ps.length) 0

/-- The feature dimension of a (B, L, D) tensor. -/
def featDim (xhat : Ten3) : Nat := ((xhat.headD []).headD []).length

/-- `downsample(x_hat, b, p)` from the notebook: per batch element, gather the
rows where `b` is nonzero, right-pad every element to the batch-wide maximum
selected length, and return the padded features and padded probabilities.
The function returns exactly this pair; no per-element valid length is
returned. -/
def downsample (xhat : Ten3) (b p : Ten2) : Ten3 × Ten2 :=
  let sel := List.zipWith selectRows xhat b
  let selP := List.zipWith selectProbs p b
  let maxLen := (sel.map List.length).foldl Nat.max 0
  (sel.map (padRows maxLen (featDim xhat)), selP.map (padProbs maxLen))

/-! ### Smoother (`smoothing_module`, notebook cell 9) -/

def smulVec (a : ℚ) (v : List ℚ) : List ℚ := v.map (fun x => a * x)

def addVec (u v : List ℚ) : List ℚ := List.zipWith (fun x y => x + y) u v

/-- The EMA loop body: given `bar_z[b, t-1]`, the remaining latents
`z_hat[b, t:]` and probabilities `P[b, t:]`, produce `bar_z[b, t:]` via
`bar_z[b, t] = P[b, t] * z_hat[b, t] + (1 - P[b, t]) * bar_z[b, t-1]`. -/
def smoothGo : List ℚ → List (List ℚ) → List ℚ → List (List ℚ)
  | _, [], _ => []
  | _, _ :: _, [] => []
  | prev, z :: zs, Pt :: Ps =>
      let cur := addVec (smulVec Pt z) (smulVec (1 - Pt) prev)
      cur :: smoothGo cur zs Ps

/-- One batch element of `smoothing_module`: `bar_z[b, 0] = z_hat[b, 0]`, then
the EMA recurrence for `t = 1 .. z_hat.shape[1] - 1` (the full compressed
length, padding included). -/
def smoothRow (zrow : List (List ℚ)) (Prow : List ℚ) : List (List ℚ) :=
  match zrow with
  | [] => []
  | z0 :: zs => z0 :: smoothGo z0 zs (Prow.drop 1)

/-- `smoothing_module(z_hat, P)` from the notebook. -/
def smoothing_module (zhat : Ten3) (P : Ten2) : Ten3 :=
  List.zipWith smoothRow zhat P

/-! ### Upsampler (`upsample`, notebook cell 11) -/

/-- The inner loop of `upsample` for one batch element: walk the positions in
`ts` keeping the running counter `chunk_idx` (second `Nat` argument), read
`bar_z[i, chunk_idx]` (an out-of-range read is the raised `IndexError`), and
advance the counter when `b[i, t] == 1 and t < original_L - 1`. -/
def upsampleGo (barZ : List (List ℚ)) (brow : List ℚ) (L : Nat) :
    List Nat → Nat → Except PyFault (List (List ℚ))
  | [], _ => .ok []
  | t :: ts, ci =>
    match barZ[ci]? with
    | none => .error (.indexError ci barZ.length)
    | some row =>
      let ci' := if brow.getD t 0 = 1 ∧ t < L - 1 then ci + 1 else ci
      match upsampleGo barZ brow L ts ci' with
      | .error e => .error e
      | .ok rest => .ok (row :: rest)

/-- One batch element of `upsample`: positions `t = 0 .. original_L - 1`,
counter starting at `chunk_idx = 0`. -/
def upsampleRow (barZ : List (List ℚ)) (brow : List ℚ) (L : Nat) :
    Except PyFault (List (List ℚ)) :=
  upsampleGo barZ brow L (List.range L) 0

/-- The confidence weight computed in `upsample`:
`c = p.clone(); c[b == 1] = p[b == 1]; c[b == 0] = 1 - p[b == 0]`. -/
def confWeight (bt pt : ℚ) : ℚ :=
  if bt = 1 then pt else if bt = 0 then 1 - pt else pt

/-- The tensor `c` computed at the end of `upsample` (and then discarded:
the function returns `z` unscaled). -/
def upsampleC (b p : Ten2) : Ten2 :=
  List.zipWith (fun brow prow => List.zipWith confWeight brow prow) b p

def exceptCons (r : Except PyFault (List (List ℚ))) (rs : Except PyFault Ten3) :
    Except PyFault Ten3 :=
  match r, rs with
  | .error e, _ => .error e
  | .ok _, .error e => .error e
  | .ok a, .ok tl => .ok (a :: tl)

/-- `upsample(bar_z, b, p, original_L, D)` from the notebook: per batch
element the counter-driven expansion; the confidence tensor `c` is computed
(`upsampleC`) but the function returns `z` only. -/
def upsample (barZ : Ten3) (b p : Ten2) (origL D : Nat) : Except PyFault Ten3 :=
  let zRows := List.zipWith (fun bz brow => upsampleRow bz brow origL) barZ b
  let _c := upsampleC b p
  zRows.foldr exceptCons (.ok [])

/-- The composition `Upsampler(Smoother(Downsampler(X)))` with the boundary
pattern `b` and probabilities `p`, at the original length and feature
dimension of `X`, as `HNet.forward` chains the three modules. -/
def roundTrip (x : Ten3) (b p : Ten2) : Except PyFault Ten3 :=
  let dp := downsample x b p
  let bar := smoothing_module dp.1 dp.2
  upsample bar b p (x.headD []).length (featDim x)

/-! ### The spec's ChunkAssignment rule (§3), for comparison with `upsample` -/

/-- The ChunkAssignment rule of the spec, §3: `idx(t)` is the prefix sum of
the (binary) boundary indicator over positions `0 .. t`, minus one. -/
def specIdxN (brow : List ℚ) (t : Nat) : Nat :=
  ((brow.take (t + 1)).countP (fun x => x = 1)) - 1

/-- The spec's raw expansion for one batch element: `z_t = bar_z[idx(t)]`. -/
def specUpsampleRow (barZ : List (List ℚ)) (brow : List ℚ) : List (List ℚ) :=
  (List.range brow.length).map (fun t => barZ.getD (specIdxN brow t) [])

/-! ### Router (`SimilarityRouter.forward`, notebook cell 6)

The router is embedded over ℝ (its norms take square roots).  All tensor
operations in the source act independently on each batch element, so the
forward pass is given per batch element (`routerPel`, `routerBel`) and the
batched output is the map over the batch. -/

/-- The stabilising constant `1e-8` added to each norm in the source. -/
noncomputable def epsR : ℝ := 1 / 100000000

/-- `torch.sum(u * v, dim=-1)` for one position: the dot product. -/
noncomputable def dotR (u v : List ℝ) : ℝ :=
  (List.zipWith (fun a b => a * b) u v).sum

/-- `torch.norm(v, dim=-1)` for one position. -/
noncomputable def normR (v : List ℝ) : ℝ := Real.sqrt (dotR v v)

/-- A bias-free linear layer (`nn.Linear(dim, dim, bias=False)`) applied to
one position: the matrix of weight rows times the vector. -/
noncomputable def matVecR (W : List (List ℝ)) (v : List ℝ) : List ℝ :=
  W.map (fun row => dotR row v)

/-- `k_shifted = torch.cat([k[:, :1, :], k[:, :-1, :]], dim=1)` for one batch
element: replicate the first row, drop the last. -/
def kShiftR (k : List (List ℝ)) : List (List ℝ) :=
  match k with
  | [] => []
  | k0 :: _ => k0 :: k.dropLast

/-- The rows of the input that `k_shifted` is built from: position 0 paired
with itself, position `t ≥ 1` paired with position `t - 1`. -/
def shiftInput (x : List (List ℝ)) : List (List ℝ) :=
  match x with
  | [] => []
  | x0 :: _ => x0 :: x.dropLast

/-- `cos_sim = dot / (norm_q * norm_k)` where `norm_q = |q| + 1e-8` and
`norm_k = |k_shifted| + 1e-8`: the epsilon is added to each norm before the
product. -/
noncomputable def cosRowR (q ks : List ℝ) : ℝ :=
  dotR q ks / ((normR q + epsR) * (normR ks + epsR))

/-- `p[:, 0] = 1.0`: override the first position in place. -/
def setHeadOne : List ℝ → List ℝ
  | [] => []
  | _ :: t => 1 :: t

/-- The boundary probabilities of one batch element:
`p = 0.5 * (1 - cos_sim)` followed by `p[:, 0] = 1.0`. -/
noncomputable def routerPel (Wq Wk : List (List ℝ)) (x : List (List ℝ)) :
    List ℝ :=
  setHeadOne (List.zipWith (fun qt kst => 1 / 2 * (1 - cosRowR qt kst))
    (x.map (matVecR Wq)) (kShiftR (x.map (matVecR Wk))))

/-- The boundary indicators of one batch element:
`b = (p >= 0.5).float()`, derived after the override of `p[:, 0]`. -/
noncomputable def routerBel (Wq Wk : List (List ℝ)) (x : List (List ℝ)) :
    List ℝ :=
  (routerPel Wq Wk x).map (fun pt => if 1 / 2 ≤ pt then (1 : ℝ) else 0)

/-- `SimilarityRouter.forward` on a batch: the pair `(p, b)`. -/
noncomputable def routerForward (Wq Wk : List (List ℝ))
    (x : List (List (List ℝ))) : List (List ℝ) × List (List ℝ) :=
  (x.map (routerPel Wq Wk), x.map (routerBel Wq Wk))

/-! ### `HNet.forward` (notebook cell 12)

The external neural components (`encoder`, `main`, `decoder`, `linear_skip`
are `nn.Linear` placeholders, the router holds learned weights) are passed in
as opaque sequence transforms.  The decompression loop calls its smoothing
function through the global name `ema_smooth`; name resolution against the
notebook's definitions is modelled by `lookupSmoother`. -/

/-- The smoothing functions the notebook defines, by global name: the only
one is `smoothing_module`; in particular the name `ema_smooth` used by
`HNet.forward` resolves to nothing. -/
def lookupSmoother (s : String) : Option (Ten3 → Ten2 → Ten3) :=
  if s = "smoothing_module" then some smoothing_module else none

/-- The per-stage tuple `(p, b, P_next)` appended to `ps` during
compression. -/
structure StageRecord where
  p : Ten2
  b : Ten2
  Pnext : Ten2

def addTen3 (u v : Ten3) : Ten3 := List.zipWith (List.zipWith addVec) u v

/-- The compression loop of `HNet.forward`: starting from the current stage
input, run `encoder`, the router, and `downsample` once per stage, collecting
the `xs` list (stage inputs, innermost last) and the `ps` records. -/
def hnetCompressGo (encoder : Ten3 → Ten3) (router : Ten3 → Ten2 × Ten2) :
    Nat → Ten3 → List Ten3 × List StageRecord
  | 0, x => ([x], [])
  | n + 1, x =>
    let xhat := encoder x
    let pb := router xhat
    let dn := downsample xhat pb.2 pb.1
    let rest := hnetCompressGo encoder router n dn.1
    (x :: rest.1, ⟨pb.1, pb.2, dn.2⟩ :: rest.2)

/-- One iteration of the decompression loop: resolve the global name
`ema_smooth` (its resolution failure is the raised `NameError`), then smooth,
upsample with stage `s`'s stored record, add the skip connection, decode. -/
def hnetDechunkStep (encoder decoder skipLin : Ten3 → Ten3)
    (xs : List Ten3) (recs : List StageRecord) (s : Nat) (z : Ten3) :
    Except PyFault Ten3 :=
  match lookupSmoother "ema_smooth" with
  | none => .error (.nameError "ema_smooth")
  | some sm =>
    let r := recs.getD s ⟨[], [], []⟩
    let xsS := xs.getD s []
    let barZ := sm z r.Pnext
    match upsample barZ r.b r.p (xsS.headD []).length (featDim xsS) with
    | .error e => .error e
    | .ok zS => .ok (decoder (addTen3 zS (skipLin (encoder xsS))))

/-- The decompression loop over the stage indices in the given order
(`reversed(range(num_stages))`), threading the current latent. -/
def hnetDecompress (encoder decoder skipLin : Ten3 → Ten3)
    (xs : List Ten3) (recs : List StageRecord) :
    List Nat → Ten3 → Except PyFault Ten3
  | [], z => .ok z
  | s :: ss, z =>
    match hnetDechunkStep encoder decoder skipLin xs recs s z with
    | .error e => .error e
    | .ok z2 => hnetDecompress encoder decoder skipLin xs recs ss z2

/-- `HNet.forward(x0)`: compression over all stages, the `main` model at the
innermost stage, then the decompression loop. -/
def hnetForward (router : Ten3 → Ten2 × Ten2)
    (encoder main decoder skipLin : Ten3 → Ten3)
    (numStages : Nat) (x0 : Ten3) : Except PyFault Ten3 :=
  let cp := hnetCompressGo encoder router numStages x0
  let zhatS := main (cp.1.getLastD [])
  hnetDecompress encoder decoder skipLin cp.1 cp.2
    (List.range numStages).reverse zhatS

/-! ### Supporting lemmas -/

theorem dotR_cons (a b : ℝ) (u v : List ℝ) :
    dotR (a :: u) (b :: v) = a * b + dotR u v := by
  simp [dotR]

theorem dotR_self_nonneg : ∀ v : List ℝ, 0 ≤ dotR v v
  | [] => le_refl 0
  | a :: v => by
      have ih := dotR_self_nonneg v
      rw [dotR_cons]
      nlinarith [mul_self_nonneg a]

theorem dotR_sq_le : ∀ u v : List ℝ, (dotR u v) ^ 2 ≤ dotR u u * dotR v v
  | [], v => by simp [dotR]
  | a :: u, [] => by simp [dotR]
  | a :: u, b :: v => by
      have ih := dotR_sq_le u v
      have hu := dotR_self_nonneg u
      have hv := dotR_self_nonneg v
      rw [dotR_cons, dotR_cons, dotR_cons]
      rcases eq_or_lt_of_le hv with hV | hV
      · have h2 : (dotR u v) ^ 2 ≤ 0 := by nlinarith
        have hd : dotR u v = 0 :=
          pow_eq_zero_iff (two_ne_zero) |>.mp
            (le_antisymm h2 (sq_nonneg (dotR u v)))
        rw [hd, ← hV]
        nlinarith [mul_nonneg hu (mul_self_nonneg b)]
      · nlinarith [sq_nonneg (a * dotR v v - b * dotR u v),
          mul_nonneg (mul_self_nonneg b)
            (by nlinarith : (0:ℝ) ≤ dotR u u * dotR v v - (dotR u v) ^ 2),
          mul_nonneg (le_of_lt hV)
            (by nlinarith : (0:ℝ) ≤ dotR u u * dotR v v - (dotR u v) ^ 2)]

theorem normR_nonneg (v : List ℝ) : 0 ≤ normR v := Real.sqrt_nonneg _

theorem abs_dotR_le (u v : List ℝ) : |dotR u v| ≤ normR u * normR v := by
  have h := dotR_sq_le u v
  rw [normR, normR, ← Real.sqrt_mul (dotR_self_nonneg u),
    ← Real.sqrt_sq_eq_abs]
  exact Real.sqrt_le_sqrt h

theorem epsR_pos : 0 < epsR := by norm_num [epsR]

theorem cosDen_pos (q ks : List ℝ) :
    0 < (normR q + epsR) * (normR ks + epsR) := by
  have h1 := normR_nonneg q
  have h2 := normR_nonneg ks
  have he := epsR_pos
  nlinarith

theorem abs_cosRowR_le_one (q ks : List ℝ) : |cosRowR q ks| ≤ 1 := by
  have hd := cosDen_pos q ks
  rw [cosRowR, abs_div, abs_of_pos hd, div_le_one hd]
  calc |dotR q ks| ≤ normR q * normR ks := abs_dotR_le q ks
    _ ≤ (normR q + epsR) * (normR ks + epsR) := by
        nlinarith [normR_nonneg q, normR_nonneg ks, epsR_pos]

theorem setHeadOne_getElem_succ (l : List ℝ) (n : Nat) :
    (setHeadOne l)[n + 1]? = l[n + 1]? := by
  cases l <;> rfl

theorem zipWith_getElem_some {α β γ : Type} {f : α → β → γ}
    {as : List α} {bs : List β} {n : Nat} {c : γ}
    (h : (List.zipWith f as bs)[n]? = some c) :
    ∃ a b, as[n]? = some a ∧ bs[n]? = some b ∧ c = f a b := by
  induction as generalizing bs n with
  | nil => simp at h
  | cons a as ih =>
    cases bs with
    | nil => simp at h
    | cons b bs =>
      cases n with
      | zero =>
        refine ⟨a, b, by simp, by simp, ?_⟩
        simp at h
        exact h.symm
      | succ n =>
        simp only [List.zipWith_cons_cons, List.getElem?_cons_succ] at h ⊢
        exact ih h

theorem kShiftR_map (f : List ℝ → List ℝ) (l : List (List ℝ)) :
    kShiftR (l.map f) = (shiftInput l).map f := by
  cases l with
  | nil => rfl
  | cons a r =>
    simp [kShiftR, shiftInput, List.map_dropLast]


/-! ### Claim theorems -/

/-- Claim C1 (code bug): the source's `upsample` does not satisfy
`z_t = bar_z[idx(t)]` with `idx(t)` the prefix-sum-minus-one rule.  On the
single-element input `b = [1, 0, 1, 1]` with three chunks, the code's
counter yields chunk reads `[0, 1, 1, 2]` (output `[[10],[20],[20],[30]]`),
while the spec's ChunkAssignment rule yields `idx = [0, 0, 1, 1+1]`
(expansion `[[10],[10],[20],[30]]`): the non-boundary position 1 is read from
chunk 1 instead of chunk 0. -/
theorem upsample_chunk_assignment_drift :
    upsample [[[10], [20], [30]]] [[1, 0, 1, 1]] [[1, 0, 1, 1]] 4 1 =
        .ok [[[10], [20], [20], [30]]] ∧
      specUpsampleRow [[10], [20], [30]] [1, 0, 1, 1] =
        [[10], [10], [20], [30]] ∧
      ([[(10:ℚ)], [20], [20], [30]] : List (List ℚ)) ≠
        [[10], [10], [20], [30]] := by
  refine ⟨?_, ?_, ?_⟩
  · norm_num [upsample, upsampleRow, upsampleGo, exceptCons, List.range_succ]
  · norm_num [specUpsampleRow, specIdxN, List.range_succ, List.countP_cons]
  · norm_num

/-- Claim C2 (code bug): on Scenario A's boundary pattern `b = [1, 0, 1, 0]`
with two real chunks, the source's `upsample` reaches chunk index 2 at
position 3 and performs an unchecked out-of-range read: the result is the raw
`IndexError` (index 2, size 2), not a checked, descriptive overrun fault. -/
theorem upsample_raw_index_fault :
    upsample [[[10], [20]]] [[1, 0, 1, 0]] [[1, 1/5, 7/10, 3/10]] 4 1 =
      .error (.indexError 2 2) := by
  norm_num [upsample, upsampleRow, upsampleGo, exceptCons, List.range_succ]

/-- Claim C3 (code bug): `downsample` returns only the padded features and
padded probabilities; no ValidLength vector is part of its result.  On a
batch with chunk counts 3 and 5 (Scenario C) the per-element selected
lengths, and the per-element sums of `b`, are `[3, 5]` — the values a
ValidLength output would have to report — but the returned pair drops
them. -/
theorem downsample_drops_validlength :
    downsample [[[1], [2], [3], [4], [5]], [[6], [7], [8], [9], [10]]]
        [[1, 0, 1, 0, 1], [1, 1, 1, 1, 1]]
        [[1, 1/4, 3/4, 1/4, 3/4], [1, 1, 1, 1, 1]] =
      ([[[1], [3], [5], [0], [0]], [[6], [7], [8], [9], [10]]],
       [[1, 3/4, 3/4, 0, 0], [1, 1, 1, 1, 1]]) ∧
    (List.zipWith selectRows
        [[[1], [2], [3], [4], [5]], [[6], [7], [8], [9], [10]]]
        [[1, 0, 1, 0, 1], [1, 1, 1, 1, 1]]).map List.length = [3, 5] ∧
    ([[1, 0, 1, 0, 1], [1, 1, 1, 1, 1]] : Ten2).map List.sum =
      [(3:ℚ), 5] := by
  refine ⟨?_, ?_, ?_⟩
  · norm_num [downsample, selectRows, selectProbs, padRows, padProbs, featDim,
      zeroVec, List.filterMap_cons, List.replicate]
  · norm_num [selectRows, List.filterMap_cons]
  · norm_num

/-- Claim C4 (code bug): the source's `upsample` computes the confidence
tensor `c` (`upsampleC`) but returns the raw expansion `z` unscaled.  On the
all-boundary input `b = [1, 1]`, `p = [1, 3/5]`, the returned value at
position 1 is the unmodified latent `[2]`, not the confidence-scaled
`c_1 * z_1 = [6/5]` the claim requires. -/
theorem upsample_skips_confidence_scaling :
    upsample [[[5], [2]]] [[1, 1]] [[1, 3/5]] 2 1 = .ok [[[5], [2]]] ∧
      upsampleC [[1, 1]] [[1, 3/5]] = [[1, 3/5]] ∧
      ([[(5:ℚ)], [2]] : List (List ℚ)) ≠ [[5], [6/5]] := by
  refine ⟨?_, ?_, ?_⟩
  · norm_num [upsample, upsampleRow, upsampleGo, exceptCons, List.range_succ]
  · norm_num [upsampleC, confWeight]
  · norm_num

/-- Claim C5 (code bug): `smoothing_module` runs the EMA recurrence over the
full padded compressed length, with no notion of a per-element ValidLength.
On a batch whose element 0 has one real chunk padded to length 2 (the padded
latent and probability are 0), the code writes
`bar_z[0, 1] = 0 * 0 + (1 - 0) * bar_z[0, 0] = [4]` — a real value propagated
into the padding slot, which the claim says must stay excluded. -/
theorem smoothing_module_runs_into_padding :
    smoothing_module [[[4], [0]], [[1], [2]]] [[1, 0], [1, 1/2]] =
      [[[4], [4]], [[1], [3/2]]] := by
  norm_num [smoothing_module, smoothRow, smoothGo, addVec, smulVec]

/-- Claim C6 (code bug): the composition
`Upsampler(Smoother(Downsampler(X)))` does not return a tensor of the input's
shape for every boundary pattern: on `X` of shape (1, 4, 1) with
`b = [1, 0, 1, 0]` (Scenario A) the chain raises the raw `IndexError` of the
Upsampler instead of producing a (1, 4, 1) result. -/
theorem roundTrip_shape_fault :
    roundTrip [[[1], [2], [3], [4]]] [[1, 0, 1, 0]] [[1, 1/5, 7/10, 3/10]] =
      .error (.indexError 2 2) := by
  norm_num [roundTrip, downsample, selectRows, selectProbs, padRows, padProbs,
    featDim, zeroVec, List.filterMap_cons, smoothing_module, smoothRow,
    smoothGo, addVec, smulVec, upsample, upsampleRow, upsampleGo, exceptCons,
    List.range_succ]

/-- Claim C7: after the router, each batch element's probabilities start with
the forced `p[i, 0] = 1.0`, the indicators start with `b[i, 0] = 1`, and at
every position the indicator is 1 exactly when the probability is at least
0.5. -/
theorem router_forces_first_boundary (Wq Wk : List (List ℝ))
    (x : List (List (List ℝ))) (hx : ∀ r ∈ x, r ≠ []) :
    (∀ prow ∈ (routerForward Wq Wk x).1, prow.head? = some 1) ∧
    (∀ brow ∈ (routerForward Wq Wk x).2, brow.head? = some 1) ∧
    (∀ xi ∈ x, ∀ (t : Nat) (pt : ℝ), (routerPel Wq Wk xi)[t]? = some pt →
      ((routerBel Wq Wk xi)[t]? = some 1 ↔ 1 / 2 ≤ pt)) := by
  have hhead : ∀ xi ∈ x, (routerPel Wq Wk xi).head? = some 1 := by
    intro xi hxi
    cases xi with
    | nil => exact absurd rfl (hx [] hxi)
    | cons a r =>
      simp [routerPel, kShiftR, setHeadOne]
  refine ⟨?_, ?_, ?_⟩
  · intro prow hprow
    obtain ⟨xi, hxi, rfl⟩ := List.mem_map.mp hprow
    exact hhead xi hxi
  · intro brow hbrow
    obtain ⟨xi, hxi, rfl⟩ := List.mem_map.mp hbrow
    have h1 := hhead xi hxi
    cases hp : routerPel Wq Wk xi with
    | nil => rw [hp] at h1; simp at h1
    | cons p0 ps =>
      rw [hp] at h1
      simp only [List.head?_cons, Option.some.injEq] at h1
      subst h1
      simp [routerBel, hp]
      norm_num
  · intro xi hxi t pt hp
    have hb : (routerBel Wq Wk xi)[t]? =
        some (if 1 / 2 ≤ pt then (1 : ℝ) else 0) := by
      rw [routerBel, List.getElem?_map, hp, Option.map_some']
    rw [hb]
    by_cases hc : 1 / 2 ≤ pt
    · simp [hc]
    · simp only [if_neg hc, Option.some.injEq]
      constructor
      · intro h0
        exact absurd h0 (by norm_num)
      · intro h0
        exact absurd h0 hc

/-- Witness for C7 at a concrete one-element batch. -/
theorem router_forces_first_boundary_witness :
    (∀ r ∈ ([[[(1:ℝ)]]] : List (List (List ℝ))), r ≠ []) ∧
    ((∀ prow ∈ (routerForward [[1]] [[1]] [[[(1:ℝ)]]]).1,
        prow.head? = some 1) ∧
      (∀ brow ∈ (routerForward [[1]] [[1]] [[[(1:ℝ)]]]).2,
        brow.head? = some 1) ∧
      (∀ xi ∈ ([[[(1:ℝ)]]] : List (List (List ℝ))), ∀ (t : Nat) (pt : ℝ),
        (routerPel [[1]] [[1]] xi)[t]? = some pt →
          ((routerBel [[1]] [[1]] xi)[t]? = some 1 ↔ 1 / 2 ≤ pt))) := by
  have hx : ∀ r ∈ ([[[(1:ℝ)]]] : List (List (List ℝ))), r ≠ [] := by
    intro r hr
    simp only [List.mem_singleton] at hr
    subst hr
    simp
  exact ⟨hx, router_forces_first_boundary [[1]] [[1]] [[[(1:ℝ)]]] hx⟩

/-- Claim C8 (amended): for every position `t ≥ 1` the router computes
`p_t = 0.5 * (1 - cos_t)` where the cosine similarity's denominator adds the
fixed `ε = 1e-8` to each of the two norms before multiplying them,
`cos_t = dot / ((‖Q_t‖ + ε) * (‖K_shifted_t‖ + ε))`; that denominator is
strictly positive (so the division never faults) and the cosine value is
bounded by 1 in absolute value, even when a projection has zero norm. -/
theorem router_eps_per_norm (Wq Wk : List (List ℝ)) (xi : List (List ℝ))
    (n : Nat) (xit sit : List ℝ) (hxt : xi[n + 1]? = some xit)
    (hst : (shiftInput xi)[n + 1]? = some sit) (pt : ℝ)
    (hp : (routerPel Wq Wk xi)[n + 1]? = some pt) :
    pt = 1 / 2 * (1 - cosRowR (matVecR Wq xit) (matVecR Wk sit)) ∧
    0 < (normR (matVecR Wq xit) + epsR) * (normR (matVecR Wk sit) + epsR) ∧
    |cosRowR (matVecR Wq xit) (matVecR Wk sit)| ≤ 1 := by
  refine ⟨?_, cosDen_pos _ _, abs_cosRowR_le_one _ _⟩
  rw [routerPel, setHeadOne_getElem_succ] at hp
  obtain ⟨qt, kst, hq, hk, rfl⟩ := zipWith_getElem_some hp
  rw [List.getElem?_map, hxt, Option.map_some'] at hq
  rw [kShiftR_map, List.getElem?_map, hst, Option.map_some'] at hk
  rw [← Option.some.inj hq, ← Option.some.inj hk]

/-- Witness for C8's amended theorem at `W_q = W_k = [[1]]`,
`x = [[1], [1]]`, position 1. -/
theorem router_eps_per_norm_witness :
    (([[(1:ℝ)], [1]] : List (List ℝ))[1]? = some [1]) ∧
    ((shiftInput [[(1:ℝ)], [1]])[1]? = some [1]) ∧
    ((routerPel [[(1:ℝ)]] [[1]] [[1], [1]])[1]? =
      some (1 / 2 * (1 - cosRowR (matVecR [[(1:ℝ)]] [1])
        (matVecR [[1]] [1])))) ∧
    (1 / 2 * (1 - cosRowR (matVecR [[(1:ℝ)]] [1]) (matVecR [[1]] [1])) =
        1 / 2 * (1 - cosRowR (matVecR [[(1:ℝ)]] [1]) (matVecR [[1]] [1])) ∧
      0 < (normR (matVecR [[(1:ℝ)]] [1]) + epsR) *
          (normR (matVecR [[1]] [1]) + epsR) ∧
      |cosRowR (matVecR [[(1:ℝ)]] [1]) (matVecR [[1]] [1])| ≤ 1) := by
  have h1 : ([[(1:ℝ)], [1]] : List (List ℝ))[1]? = some [1] := by simp
  have h2 : (shiftInput [[(1:ℝ)], [1]])[1]? = some [1] := by
    simp [shiftInput]
  have h3 : (routerPel [[(1:ℝ)]] [[1]] [[1], [1]])[1]? =
      some (1 / 2 * (1 - cosRowR (matVecR [[(1:ℝ)]] [1])
        (matVecR [[1]] [1]))) := by
    simp [routerPel, kShiftR, setHeadOne]
  exact ⟨h1, h2, h3,
    router_eps_per_norm [[1]] [[1]] [[1], [1]] 0 [1] [1] h1 h2 _ h3⟩

/-- Counterexample to C8 as stated: at `W_q = W_k = [[1]]`, `x = [[1], [1]]`,
the router's `p_1` differs from the claimed formula in which `ε` is added
once to the product of the norms (`dot / (‖Q‖ * ‖K‖ + ε)`): the code divides
by `(‖Q‖ + ε) * (‖K‖ + ε)` instead. -/
theorem router_eps_counterexample :
    ¬ ((routerPel [[(1:ℝ)]] [[1]] [[1], [1]])[1]? =
        some (1 / 2 * (1 - dotR (matVecR [[(1:ℝ)]] [1]) (matVecR [[1]] [1]) /
          (normR (matVecR [[(1:ℝ)]] [1]) * normR (matVecR [[1]] [1]) +
            epsR)))) := by
  have h3 : (routerPel [[(1:ℝ)]] [[1]] [[1], [1]])[1]? =
      some (1 / 2 * (1 - cosRowR (matVecR [[(1:ℝ)]] [1])
        (matVecR [[1]] [1]))) := by
    simp [routerPel, kShiftR, setHeadOne]
  rw [h3]
  simp only [Option.some.injEq, cosRowR, matVecR, dotR, normR, List.map_cons,
    List.map_nil, List.zipWith_cons_cons, List.zipWith_nil_right,
    List.sum_cons, List.sum_nil]
  norm_num [epsR, Real.sqrt_one]

/-- Claim C9: whenever `p_t` lies in [0, 1] and `b_t` is threshold-consistent
with `p_t` (`b_t = 1` iff `p_t ≥ 0.5`, else `b_t = 0`), the confidence weight
computed in the Upsampler lies in [0.5, 1]. -/
theorem confWeight_range (p b : ℚ) (hp0 : 0 ≤ p) (hp1 : p ≤ 1)
    (hb : b = if 1 / 2 ≤ p then 1 else 0) :
    1 / 2 ≤ confWeight b p ∧ confWeight b p ≤ 1 := by
  by_cases h : 1 / 2 ≤ p
  · rw [hb, if_pos h]
    simp only [confWeight, if_pos rfl]
    exact ⟨h, hp1⟩
  · rw [hb, if_neg h]
    have h2 : confWeight 0 p = 1 - p := by norm_num [confWeight]
    rw [h2]
    push_neg at h
    constructor
    · linarith
    · linarith

/-- Witness for C9 at `p = 7/10`, `b = 1`. -/
theorem confWeight_range_witness :
    (0 ≤ (7:ℚ)/10) ∧ ((7:ℚ)/10 ≤ 1) ∧
    ((1:ℚ) = if 1 / 2 ≤ (7:ℚ)/10 then 1 else 0) ∧
    (1 / 2 ≤ confWeight 1 (7/10) ∧ confWeight 1 (7/10) ≤ 1) :=
  ⟨by norm_num, by norm_num, by norm_num,
    confWeight_range (7/10) 1 (by norm_num) (by norm_num) (by norm_num)⟩

/-- Claim C10: for every input and every choice of the external components,
as soon as there is at least one stage, `HNet.forward` fails at the first
iteration of its decompression loop with the unresolved-name fault for
`ema_smooth` — the notebook defines its smoothing function only under the
name `smoothing_module` — before the Smoother recurrence, the Upsampler, or
the skip connection can run. -/
theorem hnetForward_name_fault (router : Ten3 → Ten2 × Ten2)
    (encoder main decoder skipLin : Ten3 → Ten3) (numStages : Nat)
    (x0 : Ten3) (h : 1 ≤ numStages) :
    hnetForward router encoder main decoder skipLin numStages x0 =
      .error (.nameError "ema_smooth") ∧
    lookupSmoother "smoothing_module" = some smoothing_module := by
  constructor
  · obtain ⟨m, rfl⟩ : ∃ m, numStages = m + 1 := ⟨numStages - 1, by omega⟩
    have hrev : (List.range (m + 1)).reverse = m :: (List.range m).reverse := by
      rw [List.range_succ, List.reverse_append]
      rfl
    have hls : lookupSmoother "ema_smooth" = none := by
      simp [lookupSmoother]
    simp [hnetForward, hrev, hnetDecompress, hnetDechunkStep, hls]
  · simp [lookupSmoother]

/-- Witness for C10 with one stage and concrete opaque components. -/
theorem hnetForward_name_fault_witness :
    (1 ≤ 1) ∧
    (hnetForward (fun _ => ([], [])) id id id id 1 [[[1]]] =
        .error (.nameError "ema_smooth") ∧
      lookupSmoother "smoothing_module" = some smoothing_module) :=
  ⟨le_refl 1,
    hnetForward_name_fault (fun _ => ([], [])) id id id id 1 [[[1]]]
      (le_refl 1)⟩
